import Mathlib

/-!
Shallow embedding of `find-uos-codes.js` (course-record-tools).

Strings are modelled as `List Char` (`Str`).  The two JavaScript regular
expressions of the program, `/r(\d{7})/g` and `/([A-Z]{4}\s*[0-9]{4})/g`,
are embedded as explicit left-to-right scanners (`recScan`, `uosScan`)
that reproduce the semantics of `String.prototype.match` with the global
flag: leftmost non-overlapping matches in order, `null` (here `none`)
when there is no match.  The external Sierra store is a parameter
`store : Str → Except ε (List Str)` returning the ordered list of COURSE
field contents for a record-number digit string; a failing query is an
`Except.error`.  Rows carry the two derived fields the script attaches
(`recordNumbers`, `results`), both `Option` to model absent/null.
-/

/-! ## Definitions (the embedding of the program) -/

abbrev Str := List Char

/-- ASCII uppercase letter, the `[A-Z]` character class of the pattern. -/
def isUpperCh (c : Char) : Bool := 'A' ≤ c && c ≤ 'Z'

/-- ASCII digit, the `[0-9]` / `\d` character class of the patterns. -/
def isDigitCh (c : Char) : Bool := '0' ≤ c && c ≤ '9'

/-- The JavaScript `\s` character class (whitespace as matched by RegExp). -/
def isJsSpace (c : Char) : Bool :=
  c.toNat = 0x20 || c.toNat = 0x09 || c.toNat = 0x0a || c.toNat = 0x0b ||
  c.toNat = 0x0c || c.toNat = 0x0d || c.toNat = 0xa0 || c.toNat = 0x1680 ||
  (0x2000 ≤ c.toNat && c.toNat ≤ 0x200a) || c.toNat = 0x2028 ||
  c.toNat = 0x2029 || c.toNat = 0x202f || c.toNat = 0x205f ||
  c.toNat = 0x3000 || c.toNat = 0xfeff

/-- Does an 8-character window match `r\d{7}` exactly? -/
def isRecToken : Str → Bool
  | [r, d1, d2, d3, d4, d5, d6, d7] =>
      r = 'r' && isDigitCh d1 && isDigitCh d2 && isDigitCh d3 && isDigitCh d4 &&
      isDigitCh d5 && isDigitCh d6 && isDigitCh d7
  | _ => false

/-- Fuel-indexed worker for `recScan`; the fuel only makes the recursion
structural and is irrelevant once it is at least the input length. -/
def recScanF : Nat → Str → List Str
  | 0, _ => []
  | _ + 1, [] => []
  | fuel + 1, c :: cs =>
      if isRecToken ((c :: cs).take 8) then
        (c :: cs).take 8 :: recScanF fuel ((c :: cs).drop 8)
      else
        recScanF fuel cs

/-- Global scan for `/r(\d{7})/g`: leftmost non-overlapping matches of
`r` followed by exactly 7 digits, in left-to-right order, duplicates kept
(the behaviour of `text.match(recordNumberRegEx)` up to null). -/
def recScan (s : Str) : List Str := recScanF s.length s

/-- One attempt of `[A-Z]{4}\s*[0-9]{4}` anchored at the start of `s`:
on success, the matched text and the remainder of the input after it. -/
def uosHere (s : Str) : Option (Str × Str) :=
  match s with
  | a :: b :: c :: d :: rest =>
      if isUpperCh a && isUpperCh b && isUpperCh c && isUpperCh d then
        match rest.dropWhile isJsSpace with
        | w :: x :: y :: z :: rest2 =>
            if isDigitCh w && isDigitCh x && isDigitCh y && isDigitCh z then
              some (a :: b :: c :: d :: (rest.takeWhile isJsSpace ++ [w, x, y, z]), rest2)
            else none
        | _ => none
      else none
  | _ => none

/-- Fuel-indexed worker for `uosScan`; the fuel only makes the recursion
structural and is irrelevant once it is at least the input length. -/
def uosScanF : Nat → Str → List Str
  | 0, _ => []
  | _ + 1, [] => []
  | fuel + 1, c :: cs =>
      match uosHere (c :: cs) with
      | some (m, rest) => m :: uosScanF fuel rest
      | none => uosScanF fuel cs

/-- Global scan for `/([A-Z]{4}\s*[0-9]{4})/g`: leftmost non-overlapping
matches in left-to-right order (the behaviour of
`field_content.match(uosCodeRegEx)` up to null). -/
def uosScan (s : Str) : List Str := uosScanF s.length s

/-- `text.match(re)` returns `null` when there is no match, otherwise the
non-empty array of matches. -/
def jsMatchOpt (scan : Str → List Str) (s : Str) : Option (List Str) :=
  match scan s with
  | [] => none
  | x :: xs => some (x :: xs)

/-- JavaScript `x.replace(' ', '')` with a string pattern: remove the
FIRST literal space character, if any; nothing else. -/
def replaceFirstSpace : Str → Str
  | [] => []
  | c :: cs => if c = ' ' then cs else c :: replaceFirstSpace cs

/-- lodash `_fp.sortedUniq`: collapse adjacent equal elements. -/
def sortedUniq {α : Type} [DecidableEq α] : List α → List α
  | [] => []
  | [a] => [a]
  | a :: b :: rest =>
      if a = b then sortedUniq (b :: rest) else a :: sortedUniq (b :: rest)

/-- lodash `_fp.uniq` worker: keep an element iff it is not among those
already kept (first-occurrence-order dedup). -/
def jsUniqGo {α : Type} [DecidableEq α] (seen : List α) : List α → List α
  | [] => []
  | x :: xs => if x ∈ seen then jsUniqGo seen xs else x :: jsUniqGo (x :: seen) xs

/-- lodash `_fp.uniq`: first-occurrence-order deduplication. -/
def jsUniq {α : Type} [DecidableEq α] (l : List α) : List α := jsUniqGo [] l

/-- `Array.prototype.join(', ')`. -/
def joinComma : List Str → Str
  | [] => []
  | [x] => x
  | x :: y :: xs => x ++ [',', ' '] ++ joinComma (y :: xs)

/-- JavaScript array element assignment `y[i] = v`: in-range indices are
overwritten; past-the-end assignment pads with holes (which the csv
stringifier renders as empty cells). -/
def jsSetAt (l : List Str) (i : Nat) (v : Str) : List Str :=
  if i < l.length then l.set i v
  else l ++ List.replicate (i - l.length) [] ++ [v]

/-- One parsed CSV row with the derived fields the script attaches. -/
structure Row where
  cells : List Str
  recordNumbers : Option (List Str)
  results : Option (List Str)
deriving DecidableEq

/-- The processing-mode parameters derived from the command line:
`resultColumn = none` models the insert-new-column sentinel (`-r 0`,
internally `-1`). -/
structure Config where
  skip : Nat
  recordNumberColumn : Nat
  resultColumn : Option Nat

/-- Truthiness of `x.cells[i]`: a present, non-empty string. -/
def cellTruthy (cells : List Str) (i : Nat) : Bool :=
  match cells[i]? with
  | some s => !s.isEmpty
  | none => false

/-- `_.reject(rowsToProcess, x => x.cells[resultColumn])`: in in-place
mode a row with a truthy cell in the result column is excluded. -/
def excludedByPrefilled (cfg : Config) (row : Row) : Bool :=
  match cfg.resultColumn with
  | some rc => cellTruthy row.cells rc
  | none => false

/-- Loop body of `augmentInputDataWithRecordNumbers`: excluded rows pass
through; otherwise `x.cells[recordNumberColumn].match(recordNumberRegEx)`
is assigned, which throws (here `Except.error`) when the cell is absent. -/
def processOneRow (cfg : Config) (row : Row) : Except Unit Row :=
  if excludedByPrefilled cfg row then .ok row
  else
    match row.cells[cfg.recordNumberColumn]? with
    | none => .error ()
    | some cell => .ok { row with recordNumbers := jsMatchOpt recScan cell }

/-- The `for (let x of rowsToProcess)` loop: process rows in order,
aborting at the first thrown TypeError. -/
def processRows (cfg : Config) : List Row → Except Unit (List Row)
  | [] => .ok []
  | row :: rest =>
      match processOneRow cfg row with
      | .error e => .error e
      | .ok row' =>
          match processRows cfg rest with
          | .error e => .error e
          | .ok rest' => .ok (row' :: rest')

/-- `augmentInputDataWithRecordNumbers`: rows before `skip` are untouched;
the rest are processed in order. -/
def augmentInputDataWithRecordNumbers (cfg : Config) (rows : List Row) :
    Except Unit (List Row) :=
  match processRows cfg (rows.drop cfg.skip) with
  | .error e => .error e
  | .ok post => .ok (rows.take cfg.skip ++ post)

/-- `uniqSetOfRecordNumbers`: flatten each row's record-number list
(absent ones filtered out), sort, collapse adjacent duplicates. -/
def uniqSetOfRecordNumbers (rows : List Row) : List Str :=
  sortedUniq (List.insertionSort (· ≤ ·) ((rows.filterMap Row.recordNumbers).flatten))

/-- The resolution stored in the mapping for one record number. -/
inductive Resolution where
  | codes (cs : List Str)
  | text (t : Str)
deriving DecidableEq

/-- The UOS codes of one record's course fields: match each field,
drop nulls, flatten, normalize, sort, collapse adjacent duplicates. -/
def uosCodesOf (courseFields : List Str) : List Str :=
  sortedUniq (List.insertionSort (· ≤ ·)
    (((courseFields.filterMap (jsMatchOpt uosScan)).flatten).map replaceFirstSpace))

/-- The value `mapping.set(recordNumber, ...)` stores: codes if any
(`uosCodes.length > 0`), else the first course field verbatim
(`courseFields.length > 0`), else the record number itself. -/
def resolveRecord (courseFields : List Str) (recordNumber : Str) : Resolution :=
  if 0 < (uosCodesOf courseFields).length then .codes (uosCodesOf courseFields)
  else
    match courseFields with
    | f :: _ => .text f
    | [] => .text recordNumber

/-- The sequential query loop of `findUosCode`: each record number is
queried (with its `r` marker stripped, `recordNumber.substr(1)`) and
resolved in order; a failing query aborts the loop with that error. -/
def resolveAll {ε : Type} (store : Str → Except ε (List Str)) :
    List Str → Except ε (List (Str × Resolution))
  | [] => .ok []
  | rn :: rest =>
      match store (rn.drop 1) with
      | .error e => .error e
      | .ok courseFields =>
          match resolveAll store rest with
          | .error e => .error e
          | .ok m => .ok ((rn, resolveRecord courseFields rn) :: m)

/-- `findUosCode`: the resolution mapping for the distinct record numbers
across all rows. -/
def findUosCode {ε : Type} (store : Str → Except ε (List Str)) (rows : List Row) :
    Except ε (List (Str × Resolution)) :=
  resolveAll store (uniqSetOfRecordNumbers rows)

/-- The record numbers the store is actually asked about, in order: the
whole list on success, or the queried ones up to and including the first
failing one. -/
def storeCalls {ε : Type} (store : Str → Except ε (List Str)) : List Str → List Str
  | [] => []
  | rn :: rest =>
      match store (rn.drop 1) with
      | .ok _ => rn :: storeCalls store rest
      | .error _ => [rn]

/-- `_fp.flattenDeep` applied to a mapping value: a codes array
contributes its elements, a plain string contributes itself. -/
def resolutionFlat : Resolution → List Str
  | .codes cs => cs
  | .text t => [t]

/-- One row's `results`: map each of its record numbers through the
mapping, flatten, first-occurrence dedup.  (Every record number of a
processed row is a key of the mapping, so the `none` branch is dead.) -/
def rowResultsOf (mapping : List (Str × Resolution)) (rns : List Str) : List Str :=
  jsUniq ((rns.map (fun rn =>
    match List.lookup rn mapping with
    | some v => resolutionFlat v
    | none => [])).flatten)

/-- `augmentInputDataWithResults`: rows with a record-number list get
`results`; all other rows are untouched. -/
def augmentInputDataWithResults (mapping : List (Str × Resolution))
    (rows : List Row) : List Row :=
  rows.map (fun row =>
    match row.recordNumbers with
    | some rns => { row with results := some (rowResultsOf mapping rns) }
    | none => row)

/-- `outputInExistingColumn` (in-place mode): the first `skip` rows are
written with an extra leading blank cell; other rows with `results` get
`y[resultColumn] = results.join(', ')`, the rest are written as read. -/
def outputInExistingColumn (skip rc : Nat) (rows : List Row) : List (List Str) :=
  (rows.take skip).map (fun x => [] :: x.cells) ++
  (rows.drop skip).map (fun x =>
    match x.results with
    | some rs => jsSetAt x.cells rc (joinComma rs)
    | none => x.cells)

/-- `outputInNewColumn` (insert mode): the first `skip` rows are written
as read; other rows gain a leading cell, the joined results or blank. -/
def outputInNewColumn (skip : Nat) (rows : List Row) : List (List Str) :=
  (rows.take skip).map Row.cells ++
  (rows.drop skip).map (fun x =>
    match x.results with
    | some rs => joinComma rs :: x.cells
    | none => [] :: x.cells)

/-- Error type of a whole run: the record-number extractor's TypeError or
a store error. -/
inductive RunError (ε : Type) where
  | typeError
  | storeError (e : ε)
deriving DecidableEq

/-- The promise chain
`loadInputFile → augmentInputDataWithRecordNumbers → findUosCode →
augmentInputDataWithResults → output`, with any rejection propagated
unchanged to the caller. -/
def runPipeline {ε : Type} (cfg : Config) (store : Str → Except ε (List Str))
    (input : List (List Str)) : Except (RunError ε) (List (List Str)) :=
  match augmentInputDataWithRecordNumbers cfg (input.map (fun cs => Row.mk cs none none)) with
  | .error _ => .error .typeError
  | .ok rows1 =>
      match findUosCode store rows1 with
      | .error e => .error (.storeError e)
      | .ok mapping =>
          let rows2 := augmentInputDataWithResults mapping rows1
          match cfg.resultColumn with
          | none => .ok (outputInNewColumn cfg.skip rows2)
          | some rc => .ok (outputInExistingColumn cfg.skip rc rows2)

/-- What insert mode emits for the row at input position `i` — written
from the spec's words "output is a structural re-projection": a function
of that row (and whether the position is skipped) alone. -/
def projectNewColumn (skip i : Nat) (row : Row) : List Str :=
  if i < skip then row.cells
  else
    match row.results with
    | some rs => joinComma rs :: row.cells
    | none => [] :: row.cells

/-- What in-place mode emits for the row at input position `i`. -/
def projectExistingColumn (skip rc i : Nat) (row : Row) : List Str :=
  if i < skip then [] :: row.cells
  else
    match row.results with
    | some rs => jsSetAt row.cells rc (joinComma rs)
    | none => row.cells

/-- Does the pattern `r\d{7}` occur in `s` at position `i`? -/
def occursAt (s : Str) (i : Nat) : Bool := isRecToken ((s.drop i).take 8)

/-- All positions of `s` where the pattern occurs. -/
def recMatchPositions (s : Str) : List Nat :=
  (List.range s.length).filter (occursAt s)

/-- Greedy left-to-right selection of non-overlapping positions: keep a
position iff it does not overlap the previously kept match (all matches
have length 8). -/
def greedyPick : Nat → List Nat → List Nat
  | _, [] => []
  | lo, i :: rest => if i < lo then greedyPick lo rest else i :: greedyPick (i + 8) rest

/-- Modelled from the spec's words ("the ordered sequence of all
non-overlapping matches of the pattern … in left-to-right order,
duplicates retained"): take every position where the pattern occurs,
keep them greedily left-to-right without overlap, and read off the
matched substrings. -/
def recExtractSpec (s : Str) : List Str :=
  (greedyPick 0 (recMatchPositions s)).map (fun i => (s.drop i).take 8)

/-! ## Theorems -/

theorem recScanF_fuel (f1 f2 : Nat) :
    ∀ {s : Str}, s.length ≤ f1 → s.length ≤ f2 → recScanF f1 s = recScanF f2 s := by
  induction f1 generalizing f2 with
  | zero =>
    intro s h1 _
    have : s = [] := List.length_eq_zero.mp (Nat.le_zero.mp h1)
    subst this
    cases f2 <;> simp [recScanF]
  | succ f1 ih =>
    intro s h1 h2
    match s with
    | [] => cases f2 <;> simp [recScanF]
    | c :: cs =>
      match f2 with
      | 0 => simp at h2
      | f2 + 1 =>
        simp only [recScanF]
        simp only [List.length_cons] at h1 h2
        by_cases hm : isRecToken ((c :: cs).take 8) = true
        · simp only [hm, if_true]
          have hd : ((c :: cs).drop 8).length ≤ f1 := by
            simp only [List.length_drop, List.length_cons]; omega
          have hd2 : ((c :: cs).drop 8).length ≤ f2 := by
            simp only [List.length_drop, List.length_cons]; omega
          rw [ih f2 hd hd2]
        · simp only [hm, if_false]
          exact ih f2 (by omega) (by omega)

theorem recScan_nil : recScan [] = [] := rfl

theorem recScan_cons (c : Char) (cs : Str) :
    recScan (c :: cs) =
      if isRecToken ((c :: cs).take 8) then
        (c :: cs).take 8 :: recScan ((c :: cs).drop 8)
      else
        recScan cs := by
  show recScanF (c :: cs).length (c :: cs) = _
  simp only [List.length_cons, recScanF]
  by_cases hm : isRecToken ((c :: cs).take 8) = true
  · simp only [hm, if_true]
    rw [recScanF_fuel cs.length (((c :: cs).drop 8).length)
      (by simp only [List.length_drop, List.length_cons]; omega) (le_refl _)]
    rfl
  · simp only [hm, if_false]
    rfl

theorem uosHere_rest_lt {s m rest} (h : uosHere s = some (m, rest)) :
    rest.length < s.length := by
  unfold uosHere at h
  match s, h with
  | a :: b :: c :: d :: r, h =>
    by_cases hu : (isUpperCh a && isUpperCh b && isUpperCh c && isUpperCh d) = true
    · simp only [hu, if_true] at h
      match hw : r.dropWhile isJsSpace, h with
      | w :: x :: y :: z :: rest2, h =>
        by_cases hd : (isDigitCh w && isDigitCh x && isDigitCh y && isDigitCh z) = true
        · simp only [hw, hd, if_true, Option.some.injEq, Prod.mk.injEq] at h
          obtain ⟨-, hr⟩ := h
          subst hr
          have hlen : (r.dropWhile isJsSpace).length ≤ r.length :=
            (List.dropWhile_sublist _).length_le
          rw [hw] at hlen
          simp only [List.length_cons] at hlen ⊢
          omega
        · simp [hw, hd] at h
      | [], h => simp [hw] at h
      | [_], h => simp [hw] at h
      | [_, _], h => simp [hw] at h
      | [_, _, _], h => simp [hw] at h
    · simp [hu] at h

theorem uosScanF_fuel (f1 f2 : Nat) :
    ∀ {s : Str}, s.length ≤ f1 → s.length ≤ f2 → uosScanF f1 s = uosScanF f2 s := by
  induction f1 generalizing f2 with
  | zero =>
    intro s h1 _
    have : s = [] := List.length_eq_zero.mp (Nat.le_zero.mp h1)
    subst this
    cases f2 <;> simp [uosScanF]
  | succ f1 ih =>
    intro s h1 h2
    match s with
    | [] => cases f2 <;> simp [uosScanF]
    | c :: cs =>
      match f2 with
      | 0 => simp at h2
      | f2 + 1 =>
        simp only [List.length_cons] at h1 h2
        cases hu : uosHere (c :: cs) with
        | none =>
          simp only [uosScanF, hu]
          exact ih f2 (by omega) (by omega)
        | some p =>
          obtain ⟨m, rest⟩ := p
          have hlt : rest.length < (c :: cs).length := uosHere_rest_lt hu
          simp only [List.length_cons] at hlt
          simp only [uosScanF, hu]
          rw [ih f2 (by omega) (by omega)]

theorem uosScan_nil : uosScan [] = [] := rfl

theorem uosScan_cons (c : Char) (cs : Str) :
    uosScan (c :: cs) =
      match uosHere (c :: cs) with
      | some (m, rest) => m :: uosScan rest
      | none => uosScan cs := by
  show uosScanF (c :: cs).length (c :: cs) = _
  cases hu : uosHere (c :: cs) with
  | none => simp only [List.length_cons, uosScanF, hu]; rfl
  | some p =>
    obtain ⟨m, rest⟩ := p
    have hlt : rest.length < (c :: cs).length := uosHere_rest_lt hu
    simp only [List.length_cons] at hlt
    simp only [List.length_cons, uosScanF, hu]
    rw [uosScanF_fuel cs.length rest.length (by omega) (le_refl _)]
    rfl

/-! ### Helper lemmas about `sortedUniq` -/

theorem sortedUniq_sublist {α : Type} [DecidableEq α] :
    ∀ l : List α, List.Sublist (sortedUniq l) l
  | [] => List.Sublist.refl _
  | [a] => List.Sublist.refl _
  | a :: b :: rest => by
      simp only [sortedUniq]
      by_cases h : a = b
      · rw [if_pos h]
        exact (sortedUniq_sublist (b :: rest)).cons a
      · rw [if_neg h]
        exact (sortedUniq_sublist (b :: rest)).cons₂ a

theorem mem_sortedUniq {α : Type} [DecidableEq α] :
    ∀ {l : List α} {x : α}, x ∈ sortedUniq l ↔ x ∈ l := by
  intro l
  induction l with
  | nil => simp [sortedUniq]
  | cons a t ih =>
    intro x
    match t with
    | [] => simp [sortedUniq]
    | b :: rest =>
      simp only [sortedUniq]
      by_cases h : a = b
      · subst h
        rw [if_pos rfl, ih]
        simp only [List.mem_cons]
        tauto
      · rw [if_neg h]
        simp only [List.mem_cons, ih]

theorem sortedUniq_eq_nil_iff {α : Type} [DecidableEq α] {l : List α} :
    sortedUniq l = [] ↔ l = [] := by
  constructor
  · intro h
    match l with
    | [] => rfl
    | a :: t =>
      exfalso
      have : a ∈ sortedUniq (a :: t) := mem_sortedUniq.mpr (List.mem_cons_self a t)
      rw [h] at this
      exact List.not_mem_nil a this
  · intro h; subst h; rfl

theorem sortedUniq_nodup {α : Type} [DecidableEq α] [PartialOrder α] :
    ∀ {l : List α}, l.Pairwise (· ≤ ·) → (sortedUniq l).Nodup := by
  intro l
  induction l with
  | nil => intro _; simp [sortedUniq]
  | cons a t ih =>
    intro hp
    match t with
    | [] => simp [sortedUniq]
    | b :: rest =>
      have hp' : (b :: rest).Pairwise (· ≤ ·) := hp.of_cons
      simp only [sortedUniq]
      by_cases h : a = b
      · simp only [h, if_true]
        exact ih hp'
      · simp only [h, if_false, List.nodup_cons]
        refine ⟨?_, ih hp'⟩
        intro hmem
        have hmem' : a ∈ b :: rest := mem_sortedUniq.mp hmem
        have hab : a ≤ b := (List.pairwise_cons.mp hp).1 b (List.mem_cons_self b rest)
        rcases List.mem_cons.mp hmem' with rfl | hrest
        · exact h rfl
        · have hba : b ≤ a := (List.pairwise_cons.mp hp').1 a hrest
          exact h (le_antisymm hab hba)

theorem sortedUniq_pairwise {α : Type} [DecidableEq α] {r : α → α → Prop}
    {l : List α} (h : l.Pairwise r) : (sortedUniq l).Pairwise r :=
  h.sublist (sortedUniq_sublist l)

/-! ### C1: the three-tier resolution policy -/

theorem jsMatchOpt_eq_some {scan : Str → List Str} {s : Str} {l : List Str}
    (h : jsMatchOpt scan s = some l) : scan s = l := by
  unfold jsMatchOpt at h
  match hs : scan s with
  | [] => rw [hs] at h; simp at h
  | x :: xs => rw [hs] at h; simpa using h

theorem jsMatchOpt_of_ne_nil {scan : Str → List Str} {s : Str}
    (h : scan s ≠ []) : jsMatchOpt scan s = some (scan s) := by
  unfold jsMatchOpt
  match hs : scan s with
  | [] => exact absurd hs h
  | x :: xs => rfl

theorem insertionSort_eq_nil_iff {α : Type} {r : α → α → Prop} [DecidableRel r]
    {l : List α} : List.insertionSort r l = [] ↔ l = [] := by
  constructor
  · intro h
    have hp := List.perm_insertionSort r l
    rw [h] at hp
    exact hp.symm.eq_nil
  · intro h; subst h; rfl

theorem uosCodesOf_eq_nil_iff {courseFields : List Str} :
    uosCodesOf courseFields = [] ↔ ∀ f ∈ courseFields, uosScan f = [] := by
  unfold uosCodesOf
  rw [sortedUniq_eq_nil_iff, insertionSort_eq_nil_iff,
    List.map_eq_nil_iff, List.flatten_eq_nil_iff]
  constructor
  · intro h f hf
    by_contra hne
    match hscan : uosScan f with
    | [] => exact hne hscan
    | x :: xs =>
      have hmem : (x :: xs) ∈ courseFields.filterMap (jsMatchOpt uosScan) := by
        rw [List.mem_filterMap]
        refine ⟨f, hf, ?_⟩
        rw [jsMatchOpt_of_ne_nil (by rw [hscan]; simp), hscan]
      have := h _ hmem
      simp at this
  · intro h l hl
    rw [List.mem_filterMap] at hl
    obtain ⟨f, hf, hjs⟩ := hl
    have hscan := h f hf
    have := jsMatchOpt_eq_some hjs
    rw [hscan] at this
    unfold jsMatchOpt at hjs
    rw [hscan] at hjs
    simp at hjs

theorem mem_uosCodesOf {courseFields : List Str} {x : Str} :
    x ∈ uosCodesOf courseFields ↔
      ∃ f ∈ courseFields, ∃ m ∈ uosScan f, x = replaceFirstSpace m := by
  unfold uosCodesOf
  rw [mem_sortedUniq, (List.perm_insertionSort _ _).mem_iff, List.mem_map]
  constructor
  · rintro ⟨m, hm, rfl⟩
    rw [List.mem_flatten] at hm
    obtain ⟨l, hl, hml⟩ := hm
    rw [List.mem_filterMap] at hl
    obtain ⟨f, hf, hjs⟩ := hl
    refine ⟨f, hf, m, ?_, rfl⟩
    rw [jsMatchOpt_eq_some hjs]
    exact hml
  · rintro ⟨f, hf, m, hm, rfl⟩
    refine ⟨m, ?_, rfl⟩
    rw [List.mem_flatten]
    refine ⟨uosScan f, ?_, hm⟩
    rw [List.mem_filterMap]
    exact ⟨f, hf, jsMatchOpt_of_ne_nil (List.ne_nil_of_mem hm)⟩

/-- C1.  The resolution is a pure function of the ordered field list the
store returns: no fields → the record number itself (`r` marker kept);
fields but no UOS match anywhere → the first field's raw text; at least
one match → the sorted, duplicate-free list of normalized codes. -/
theorem resolveRecord_three_tier (courseFields : List Str) (recordNumber : Str) :
    (courseFields = [] → resolveRecord courseFields recordNumber = .text recordNumber) ∧
    (∀ f rest, courseFields = f :: rest → (∀ g ∈ courseFields, uosScan g = []) →
      resolveRecord courseFields recordNumber = .text f) ∧
    ((∃ g ∈ courseFields, uosScan g ≠ []) →
      resolveRecord courseFields recordNumber = .codes (uosCodesOf courseFields) ∧
      uosCodesOf courseFields ≠ [] ∧
      (uosCodesOf courseFields).Pairwise (· ≤ ·) ∧
      (uosCodesOf courseFields).Nodup ∧
      (∀ x ∈ uosCodesOf courseFields,
        ∃ f ∈ courseFields, ∃ m ∈ uosScan f, x = replaceFirstSpace m)) := by
  refine ⟨?_, ?_, ?_⟩
  · intro h
    subst h
    rfl
  · intro f rest hcf hnone
    have hnil : uosCodesOf courseFields = [] := uosCodesOf_eq_nil_iff.mpr hnone
    subst hcf
    unfold resolveRecord
    rw [hnil]
    simp
  · intro ⟨g, hg, hscan⟩
    have hne : uosCodesOf courseFields ≠ [] := by
      intro hnil
      exact hscan (uosCodesOf_eq_nil_iff.mp hnil g hg)
    have hsorted : (uosCodesOf courseFields).Pairwise (· ≤ ·) := by
      unfold uosCodesOf
      exact sortedUniq_pairwise (List.sorted_insertionSort _ _)
    have hnodup : (uosCodesOf courseFields).Nodup := by
      unfold uosCodesOf
      exact sortedUniq_nodup (List.sorted_insertionSort _ _)
    refine ⟨?_, hne, hsorted, hnodup, fun x hx => mem_uosCodesOf.mp hx⟩
    unfold resolveRecord
    rw [if_pos (List.length_pos.mpr hne)]

/-- Witness for C1 at the spec's own scenario: fields `see ABCD 1234` and
`ABCD1234` resolve to the single code `ABCD1234`; no fields resolve to
the record number; a code-free field resolves to its own text. -/
theorem resolveRecord_three_tier_witness :
    resolveRecord [] "r1006370".data = .text "r1006370".data ∧
    resolveRecord ["none here".data] "r1006370".data = .text "none here".data ∧
    resolveRecord ["see ABCD 1234".data, "ABCD1234".data] "r1006349".data
      = .codes (uosCodesOf ["see ABCD 1234".data, "ABCD1234".data]) := by
  refine ⟨(resolveRecord_three_tier [] "r1006370".data).1 rfl, ?_, ?_⟩
  · exact (resolveRecord_three_tier ["none here".data] "r1006370".data).2.1
      "none here".data [] rfl (by decide)
  · exact ((resolveRecord_three_tier ["see ABCD 1234".data, "ABCD1234".data]
      "r1006349".data).2.2 ⟨"ABCD1234".data, by decide, by decide⟩).1

/-! ### C2: normalization does not remove all whitespace -/

/-- C2 evaluation.  The pattern matches `ABCD  1234` (two spaces) and
`ABCD\t1234` (a tab), but `x.replace(' ', '')` removes only the first
literal space: the "normalized" codes still contain whitespace, so the
resolver's output keeps it too. -/
theorem normalize_leaves_whitespace :
    uosScan "ABCD  1234".data = ["ABCD  1234".data] ∧
    replaceFirstSpace "ABCD  1234".data = "ABCD 1234".data ∧
    (replaceFirstSpace "ABCD  1234".data).any isJsSpace = true ∧
    uosScan "ABCD\t1234".data = ["ABCD\t1234".data] ∧
    replaceFirstSpace "ABCD\t1234".data = "ABCD\t1234".data ∧
    resolveRecord ["ABCD  1234".data] "r1006349".data
      = .codes ["ABCD 1234".data] ∧
    resolveRecord ["ABCD\t1234".data] "r1006349".data
      = .codes ["ABCD\t1234".data] := by
  refine ⟨by decide, by decide, by decide, by decide, by decide, by decide, by decide⟩

/-! ### Output projection: row count, order, and per-row shape -/

theorem append_map_take_drop_length {α β : Type} (f g : α → β) (k : Nat)
    (l : List α) : ((l.take k).map f ++ (l.drop k).map g).length = l.length := by
  simp only [List.length_append, List.length_map, List.length_take, List.length_drop]
  omega

theorem append_map_take_drop_getElem {α β : Type} (f g : α → β) (k : Nat)
    (l : List α) (i : Nat) (h : i < l.length) :
    ((l.take k).map f ++ (l.drop k).map g)[i]? =
      some (if i < k then f l[i] else g l[i]) := by
  rw [List.getElem?_append, List.length_map, List.length_take]
  rcases Nat.lt_or_ge i k with hik | hik
  · rw [if_pos (by omega), List.getElem?_map, List.getElem?_take,
      if_pos hik, List.getElem?_eq_getElem h, if_pos hik]
    rfl
  · rw [if_neg (by omega), List.getElem?_map, List.getElem?_drop]
    have hidx : k + (i - min k l.length) = i := by omega
    rw [hidx, List.getElem?_eq_getElem h, if_neg (by omega)]
    rfl

theorem outputInNewColumn_length (skip : Nat) (rows : List Row) :
    (outputInNewColumn skip rows).length = rows.length :=
  append_map_take_drop_length _ _ _ _

theorem outputInExistingColumn_length (skip rc : Nat) (rows : List Row) :
    (outputInExistingColumn skip rc rows).length = rows.length :=
  append_map_take_drop_length _ _ _ _

theorem outputInNewColumn_getElem (skip : Nat) (rows : List Row) (i : Nat)
    (h : i < rows.length) :
    (outputInNewColumn skip rows)[i]? = some (projectNewColumn skip i rows[i]) := by
  unfold outputInNewColumn projectNewColumn
  rw [append_map_take_drop_getElem _ _ _ _ _ h]

theorem outputInExistingColumn_getElem (skip rc : Nat) (rows : List Row)
    (i : Nat) (h : i < rows.length) :
    (outputInExistingColumn skip rc rows)[i]? =
      some (projectExistingColumn skip rc i rows[i]) := by
  unfold outputInExistingColumn projectExistingColumn
  rw [append_map_take_drop_getElem _ _ _ _ _ h]

/-- C8.  Both output modes emit exactly one row per input row, in input
order: the output length equals the input length and the row at output
position `i` is a projection of the input row at position `i` alone. -/
theorem output_preserves_row_count_and_order (skip rc : Nat) (rows : List Row) :
    (outputInNewColumn skip rows).length = rows.length ∧
    (outputInExistingColumn skip rc rows).length = rows.length ∧
    (∀ i (h : i < rows.length),
      (outputInNewColumn skip rows)[i]? =
        some (projectNewColumn skip i rows[i])) ∧
    (∀ i (h : i < rows.length),
      (outputInExistingColumn skip rc rows)[i]? =
        some (projectExistingColumn skip rc i rows[i])) :=
  ⟨outputInNewColumn_length skip rows, outputInExistingColumn_length skip rc rows,
    fun i h => outputInNewColumn_getElem skip rows i h,
    fun i h => outputInExistingColumn_getElem skip rc rows i h⟩

/-- Witness for C8 on a concrete 3-row table (one skipped row, one row
with results, one without). -/
theorem output_preserves_row_count_and_order_witness :
    (outputInNewColumn 1 [Row.mk [['h']] none none,
      Row.mk [['a']] (some ["r1006349".data]) (some [['X']]),
      Row.mk [['b']] none none]).length = 3 ∧
    (outputInNewColumn 1 [Row.mk [['h']] none none,
      Row.mk [['a']] (some ["r1006349".data]) (some [['X']]),
      Row.mk [['b']] none none])[1]? =
      some (projectNewColumn 1 1
        (Row.mk [['a']] (some ["r1006349".data]) (some [['X']]))) := by
  constructor
  · exact (output_preserves_row_count_and_order 1 0
      [Row.mk [['h']] none none,
       Row.mk [['a']] (some ["r1006349".data]) (some [['X']]),
       Row.mk [['b']] none none]).1
  · exact (output_preserves_row_count_and_order 1 0
      [Row.mk [['h']] none none,
       Row.mk [['a']] (some ["r1006349".data]) (some [['X']]),
       Row.mk [['b']] none none]).2.2.1 1 (by decide)

/-! ### C3: insert mode and skipped rows -/

/-- C3 counterexample.  In insert mode a skipped (header) row is emitted
with its original cells only: it does NOT gain a new leading blank cell
(the claimed output for this input would be `[[[], ['h']]]`). -/
theorem outputInNewColumn_skipped_row_unchanged :
    outputInNewColumn 1 [Row.mk [['h']] none none] = [[['h']]] ∧
    ([[['h']]] : List (List Str)) ≠ [[[], ['h']]] := by
  constructor
  · rfl
  · decide

/-- C3 amended.  In insert mode, skipped (header) rows are emitted with
their original cells unchanged; every non-skipped row gains exactly one
new leading cell — the comma-joined results when the row has results,
the blank string otherwise — with all original cells shifted right. -/
theorem outputInNewColumn_amended (skip : Nat) (rows : List Row) (i : Nat)
    (h : i < rows.length) :
    (i < skip →
      (outputInNewColumn skip rows)[i]? = some rows[i].cells) ∧
    (skip ≤ i → ∀ rs, rows[i].results = some rs →
      (outputInNewColumn skip rows)[i]? = some (joinComma rs :: rows[i].cells)) ∧
    (skip ≤ i → rows[i].results = none →
      (outputInNewColumn skip rows)[i]? = some ([] :: rows[i].cells)) := by
  refine ⟨?_, ?_, ?_⟩
  · intro hik
    rw [outputInNewColumn_getElem skip rows i h]
    unfold projectNewColumn
    rw [if_pos hik]
  · intro hik rs hrs
    rw [outputInNewColumn_getElem skip rows i h]
    unfold projectNewColumn
    rw [if_neg (by omega), hrs]
  · intro hik hrs
    rw [outputInNewColumn_getElem skip rows i h]
    unfold projectNewColumn
    rw [if_neg (by omega), hrs]

/-- Witness for C3's amended theorem: header row emitted unchanged, data
row with results gains the joined results as a leading cell. -/
theorem outputInNewColumn_amended_witness :
    (outputInNewColumn 1 [Row.mk [['h']] none none,
      Row.mk [['a']] (some ["r1006349".data]) (some [['X'], ['Y']])])[0]?
      = some [['h']] ∧
    (outputInNewColumn 1 [Row.mk [['h']] none none,
      Row.mk [['a']] (some ["r1006349".data]) (some [['X'], ['Y']])])[1]?
      = some [['X', ',', ' ', 'Y'], ['a']] := by
  constructor
  · exact (outputInNewColumn_amended 1
      [Row.mk [['h']] none none,
       Row.mk [['a']] (some ["r1006349".data]) (some [['X'], ['Y']])] 0
      (by decide)).1 (by decide)
  · exact (outputInNewColumn_amended 1
      [Row.mk [['h']] none none,
       Row.mk [['a']] (some ["r1006349".data]) (some [['X'], ['Y']])] 1
      (by decide)).2.1 (by decide) [['X'], ['Y']] rfl

/-! ### C7: in-place mode frame conditions -/

/-- C7.  In in-place mode: a skipped row is emitted with one extra
leading blank cell; a processed row (one that got `results`) has exactly
the cell at `result_column` overwritten with the joined results and every
other cell unchanged (when the column exists in the row); a row without
`results` — excluded or matchless — is emitted exactly as read. -/
theorem outputInExistingColumn_frame (skip rc : Nat) (rows : List Row) (i : Nat)
    (h : i < rows.length) :
    (i < skip →
      (outputInExistingColumn skip rc rows)[i]? = some ([] :: rows[i].cells)) ∧
    (skip ≤ i → ∀ rs, rows[i].results = some rs →
      (outputInExistingColumn skip rc rows)[i]? =
        some (jsSetAt rows[i].cells rc (joinComma rs)) ∧
      (rc < rows[i].cells.length →
        (jsSetAt rows[i].cells rc (joinComma rs)).length = rows[i].cells.length ∧
        (jsSetAt rows[i].cells rc (joinComma rs))[rc]? = some (joinComma rs) ∧
        (∀ j, j ≠ rc →
          (jsSetAt rows[i].cells rc (joinComma rs))[j]? = rows[i].cells[j]?))) ∧
    (skip ≤ i → rows[i].results = none →
      (outputInExistingColumn skip rc rows)[i]? = some rows[i].cells) := by
  refine ⟨?_, ?_, ?_⟩
  · intro hik
    rw [outputInExistingColumn_getElem skip rc rows i h]
    unfold projectExistingColumn
    rw [if_pos hik]
  · intro hik rs hrs
    refine ⟨?_, ?_⟩
    · rw [outputInExistingColumn_getElem skip rc rows i h]
      unfold projectExistingColumn
      rw [if_neg (by omega), hrs]
    · intro hrc
      unfold jsSetAt
      rw [if_pos hrc]
      refine ⟨List.length_set _ _ _, ?_, ?_⟩
      · exact List.getElem?_set_eq_of_lt _ hrc
      · intro j hj
        exact List.getElem?_set_ne (fun hh => hj hh.symm)
  · intro hik hrs
    rw [outputInExistingColumn_getElem skip rc rows i h]
    unfold projectExistingColumn
    rw [if_neg (by omega), hrs]

/-- Witness for C7 on a concrete table: header gains a blank cell, the
processed row has only column 1 overwritten, the untouched row is
emitted as read. -/
theorem outputInExistingColumn_frame_witness :
    (outputInExistingColumn 1 1 [Row.mk [['h']] none none,
      Row.mk [['a'], ['b'], ['c']] (some ["r1006349".data]) (some [['X']]),
      Row.mk [['d']] none none])[0]? = some [[], ['h']] ∧
    (outputInExistingColumn 1 1 [Row.mk [['h']] none none,
      Row.mk [['a'], ['b'], ['c']] (some ["r1006349".data]) (some [['X']]),
      Row.mk [['d']] none none])[1]? = some [['a'], ['X'], ['c']] ∧
    (outputInExistingColumn 1 1 [Row.mk [['h']] none none,
      Row.mk [['a'], ['b'], ['c']] (some ["r1006349".data]) (some [['X']]),
      Row.mk [['d']] none none])[2]? = some [['d']] := by
  refine ⟨?_, ?_, ?_⟩
  · exact (outputInExistingColumn_frame 1 1 [Row.mk [['h']] none none,
      Row.mk [['a'], ['b'], ['c']] (some ["r1006349".data]) (some [['X']]),
      Row.mk [['d']] none none] 0 (by decide)).1 (by decide)
  · have := ((outputInExistingColumn_frame 1 1 [Row.mk [['h']] none none,
      Row.mk [['a'], ['b'], ['c']] (some ["r1006349".data]) (some [['X']]),
      Row.mk [['d']] none none] 1 (by decide)).2.1 (by decide) [['X']] rfl).1
    rw [this]
    rfl
  · exact (outputInExistingColumn_frame 1 1 [Row.mk [['h']] none none,
      Row.mk [['a'], ['b'], ['c']] (some ["r1006349".data]) (some [['X']]),
      Row.mk [['d']] none none] 2 (by decide)).2.2 (by decide) rfl

/-! ### C10: the unguarded cell access in the extractor -/

theorem processRows_ok_of_bounds (cfg : Config) :
    ∀ rows : List Row,
      (∀ row ∈ rows, excludedByPrefilled cfg row = false →
        cfg.recordNumberColumn < row.cells.length) →
      ∃ rows', processRows cfg rows = .ok rows'
  | [], _ => ⟨[], rfl⟩
  | row :: rest, h => by
      have hrow : ∃ row', processOneRow cfg row = .ok row' := by
        unfold processOneRow
        by_cases hex : excludedByPrefilled cfg row = true
        · exact ⟨row, by rw [if_pos hex]⟩
        · have hb : cfg.recordNumberColumn < row.cells.length :=
            h row (List.mem_cons_self row rest) (by simpa using hex)
          rw [if_neg hex]
          match hg : row.cells[cfg.recordNumberColumn]? with
          | none =>
              exfalso
              rw [List.getElem?_eq_none_iff] at hg
              omega
          | some cell => exact ⟨_, rfl⟩
      obtain ⟨row', hrow'⟩ := hrow
      obtain ⟨rest', hrest'⟩ := processRows_ok_of_bounds cfg rest
        (fun r hr => h r (List.mem_cons_of_mem row hr))
      exact ⟨row' :: rest', by unfold processRows; rw [hrow', hrest']⟩

/-- C10.  The extractor reads `x.cells[recordNumberColumn]` without a
bounds check: a processed row whose cell list is too short makes the step
throw (the concrete first conjunct), and when every non-excluded
processed row has the designated cell, the step succeeds (the
precondition under which it is well-defined). -/
theorem augment_missing_cell_fails (cfg : Config) (rows : List Row) :
    (augmentInputDataWithRecordNumbers ⟨0, 1, none⟩ [Row.mk [['x']] none none]
      = .error ()) ∧
    ((∀ row ∈ rows.drop cfg.skip, excludedByPrefilled cfg row = false →
        cfg.recordNumberColumn < row.cells.length) →
      ∃ rows', augmentInputDataWithRecordNumbers cfg rows = .ok rows') := by
  constructor
  · rfl
  · intro h
    obtain ⟨post, hpost⟩ := processRows_ok_of_bounds cfg (rows.drop cfg.skip) h
    exact ⟨rows.take cfg.skip ++ post, by
      unfold augmentInputDataWithRecordNumbers; rw [hpost]⟩

/-- Witness for C10: on an in-bounds input the step succeeds. -/
theorem augment_missing_cell_fails_witness :
    ∃ rows', augmentInputDataWithRecordNumbers ⟨1, 0, none⟩
      [Row.mk [['h']] none none, Row.mk ["r1006349".data] none none] = .ok rows' :=
  (augment_missing_cell_fails ⟨1, 0, none⟩
    [Row.mk [['h']] none none, Row.mk ["r1006349".data] none none]).2 (by decide)

/-! ### C9: store errors abort the whole resolution pass -/

theorem resolveAll_ok_iff {ε : Type} (store : Str → Except ε (List Str)) :
    ∀ l : List Str,
      (∃ m, resolveAll store l = .ok m) ↔ ∀ rn ∈ l, ∃ fs, store (rn.drop 1) = .ok fs
  | [] => ⟨fun _ rn hrn => absurd hrn (List.not_mem_nil rn), fun _ => ⟨[], rfl⟩⟩
  | rn :: rest => by
      constructor
      · rintro ⟨m, hm⟩ rn' hrn'
        unfold resolveAll at hm
        match hst : store (rn.drop 1) with
        | .error e => rw [hst] at hm; simp at hm
        | .ok fs =>
            rw [hst] at hm
            match hra : resolveAll store rest with
            | .error e => rw [hra] at hm; simp at hm
            | .ok m' =>
                rcases List.mem_cons.mp hrn' with rfl | hmem
                · exact ⟨fs, hst⟩
                · exact ((resolveAll_ok_iff store rest).mp ⟨m', hra⟩) rn' hmem
      · intro h
        obtain ⟨fs, hst⟩ := h rn (List.mem_cons_self rn rest)
        obtain ⟨m', hra⟩ := (resolveAll_ok_iff store rest).mpr
          (fun x hx => h x (List.mem_cons_of_mem rn hx))
        exact ⟨(rn, resolveRecord fs rn) :: m', by
          unfold resolveAll; rw [hst, hra]⟩

theorem resolveAll_error_from_store {ε : Type} (store : Str → Except ε (List Str)) :
    ∀ (l : List Str) (e : ε), resolveAll store l = .error e →
      ∃ rn ∈ l, store (rn.drop 1) = .error e
  | [], e => by simp [resolveAll]
  | rn :: rest, e => by
      intro h
      unfold resolveAll at h
      match hst : store (rn.drop 1) with
      | .error e' =>
          rw [hst] at h
          simp only [Except.error.injEq] at h
          exact ⟨rn, List.mem_cons_self rn rest, by rw [hst, h]⟩
      | .ok fs =>
          rw [hst] at h
          match hra : resolveAll store rest with
          | .error e' =>
              rw [hra] at h
              simp only [Except.error.injEq] at h
              obtain ⟨rn', hrn', hst'⟩ :=
                resolveAll_error_from_store store rest e' hra
              exact ⟨rn', List.mem_cons_of_mem rn hrn', by rw [hst', h]⟩
          | .ok m' => rw [hra] at h; simp at h

/-- C9.  A store error for any queried record number makes the whole
resolution pass fail: `findUosCode` succeeds iff every queried record
number's store access succeeds; when it fails, the surfaced error is
exactly the store's own error for one of the queried record numbers
(never remapped, retried, or swallowed), no mapping is produced, and the
whole run fails with that store error (no output is produced). -/
theorem store_error_aborts_resolution {ε : Type}
    (store : Str → Except ε (List Str)) (rows : List Row) :
    ((∃ m, findUosCode store rows = .ok m) ↔
      ∀ rn ∈ uniqSetOfRecordNumbers rows, ∃ fs, store (rn.drop 1) = .ok fs) ∧
    (∀ e, findUosCode store rows = .error e →
      ∃ rn ∈ uniqSetOfRecordNumbers rows, store (rn.drop 1) = .error e) ∧
    (∀ (cfg : Config) (input : List (List Str)) (e : ε),
      augmentInputDataWithRecordNumbers cfg
        (input.map (fun cs => Row.mk cs none none)) = .ok rows →
      findUosCode store rows = .error e →
      runPipeline cfg store input = .error (.storeError e)) := by
  refine ⟨resolveAll_ok_iff store _, fun e h => resolveAll_error_from_store store _ e h, ?_⟩
  intro cfg input e h1 h2
  simp only [runPipeline, h1, h2]

/-- Witness for C9: a store that fails on `1006349` makes the whole run
fail with exactly that error. -/
theorem store_error_aborts_resolution_witness :
    runPipeline ⟨1, 0, none⟩
      (fun d => if d = "1006349".data then .error "boom" else .ok [])
      [[ "h".data ], [ "r1006349".data ]] = .error (.storeError "boom") := by
  refine (store_error_aborts_resolution
    (fun d => if d = "1006349".data then .error "boom" else .ok [])
    [Row.mk ["h".data] none none,
     Row.mk ["r1006349".data] (some ["r1006349".data]) none]).2.2
    ⟨1, 0, none⟩ [["h".data], ["r1006349".data]] "boom" rfl rfl

/-! ### C5: the store is queried exactly once per distinct record number -/

theorem uniqSetOfRecordNumbers_nodup (rows : List Row) :
    (uniqSetOfRecordNumbers rows).Nodup := by
  unfold uniqSetOfRecordNumbers
  exact sortedUniq_nodup (List.sorted_insertionSort _ _)

theorem mem_uniqSetOfRecordNumbers (rows : List Row) (rn : Str) :
    rn ∈ uniqSetOfRecordNumbers rows ↔
      ∃ row ∈ rows, ∃ l, row.recordNumbers = some l ∧ rn ∈ l := by
  unfold uniqSetOfRecordNumbers
  rw [mem_sortedUniq, (List.perm_insertionSort _ _).mem_iff, List.mem_flatten]
  constructor
  · rintro ⟨l, hl, hml⟩
    rw [List.mem_filterMap] at hl
    obtain ⟨row, hrow, heq⟩ := hl
    exact ⟨row, hrow, l, heq, hml⟩
  · rintro ⟨row, hrow, l, heq, hml⟩
    refine ⟨l, ?_, hml⟩
    rw [List.mem_filterMap]
    exact ⟨row, hrow, heq⟩

theorem storeCalls_sublist {ε : Type} (store : Str → Except ε (List Str)) :
    ∀ l : List Str, List.Sublist (storeCalls store l) l
  | [] => List.Sublist.refl _
  | rn :: rest => by
      unfold storeCalls
      match store (rn.drop 1) with
      | .ok _ => exact (storeCalls_sublist store rest).cons₂ rn
      | .error _ => exact (List.nil_sublist rest).cons₂ rn

theorem storeCalls_eq_of_ok {ε : Type} (store : Str → Except ε (List Str)) :
    ∀ (l : List Str) (m : List (Str × Resolution)),
      resolveAll store l = .ok m → storeCalls store l = l
  | [], _, _ => rfl
  | rn :: rest, m, h => by
      unfold resolveAll at h
      match hst : store (rn.drop 1) with
      | .error e => rw [hst] at h; simp at h
      | .ok fs =>
          rw [hst] at h
          match hra : resolveAll store rest with
          | .error e => rw [hra] at h; simp at h
          | .ok m' =>
              unfold storeCalls
              rw [hst, storeCalls_eq_of_ok store rest m' hra]

theorem resolveAll_lookup {ε : Type} (store : Str → Except ε (List Str)) :
    ∀ (l : List Str) (m : List (Str × Resolution)),
      resolveAll store l = .ok m →
      ∀ rn ∈ l, ∃ fs, store (rn.drop 1) = .ok fs ∧
        List.lookup rn m = some (resolveRecord fs rn)
  | [], m, h => by intro rn hrn; exact absurd hrn (List.not_mem_nil rn)
  | rn0 :: rest, m, h => by
      intro rn hrn
      unfold resolveAll at h
      match hst : store (rn0.drop 1) with
      | .error e => rw [hst] at h; simp at h
      | .ok fs0 =>
          rw [hst] at h
          match hra : resolveAll store rest with
          | .error e => rw [hra] at h; simp at h
          | .ok m' =>
              rw [hra] at h
              simp only [Except.ok.injEq] at h
              subst h
              by_cases heq : rn = rn0
              · subst heq
                exact ⟨fs0, hst, by simp [List.lookup]⟩
              · rcases List.mem_cons.mp hrn with rfl | hmem
                · exact absurd rfl heq
                · obtain ⟨fs, hfs, hlk⟩ :=
                    resolveAll_lookup store rest m' hra rn hmem
                  refine ⟨fs, hfs, ?_⟩
                  rw [← hlk]
                  have hb : (rn == rn0) = false := by simpa using heq
                  simp only [List.lookup, hb]

/-- C5.  The query loop iterates over `uniqSetOfRecordNumbers`, which has
no duplicates and contains exactly the record numbers appearing in some
row's list; the record numbers actually sent to the store are duplicate
free as well, and on success every queried record number is sent exactly
once and is bound in the mapping to the resolution of its own store
answer — so any two rows or cells referencing the same record number
look up the identical value. -/
theorem store_queried_once_per_distinct {ε : Type}
    (store : Str → Except ε (List Str)) (rows : List Row) :
    (uniqSetOfRecordNumbers rows).Nodup ∧
    (storeCalls store (uniqSetOfRecordNumbers rows)).Nodup ∧
    (∀ rn, rn ∈ uniqSetOfRecordNumbers rows ↔
      ∃ row ∈ rows, ∃ l, row.recordNumbers = some l ∧ rn ∈ l) ∧
    (∀ m, findUosCode store rows = .ok m →
      storeCalls store (uniqSetOfRecordNumbers rows) = uniqSetOfRecordNumbers rows ∧
      (∀ rn ∈ uniqSetOfRecordNumbers rows, ∃ fs, store (rn.drop 1) = .ok fs ∧
        List.lookup rn m = some (resolveRecord fs rn))) := by
  refine ⟨uniqSetOfRecordNumbers_nodup rows,
    (storeCalls_sublist store _).nodup (uniqSetOfRecordNumbers_nodup rows),
    mem_uniqSetOfRecordNumbers rows, ?_⟩
  intro m hm
  exact ⟨storeCalls_eq_of_ok store _ m hm, resolveAll_lookup store _ m hm⟩

/-- Witness for C5: two rows both referencing `r1006349` (plus one other
record number) lead to a duplicate-free query list and a mapping binding
each queried record number to its store answer's resolution. -/
theorem store_queried_once_per_distinct_witness :
    storeCalls (fun d => if d = "1006349".data then Except.ok ["ABCD 1234".data]
        else (Except.ok [] : Except Unit (List Str)))
      (uniqSetOfRecordNumbers
        [Row.mk [] (some ["r1006349".data, "r1006370".data]) none,
         Row.mk [] (some ["r1006349".data]) none]) =
      uniqSetOfRecordNumbers
        [Row.mk [] (some ["r1006349".data, "r1006370".data]) none,
         Row.mk [] (some ["r1006349".data]) none] :=
  ((store_queried_once_per_distinct
    (fun d => if d = "1006349".data then Except.ok ["ABCD 1234".data]
        else (Except.ok [] : Except Unit (List Str)))
    [Row.mk [] (some ["r1006349".data, "r1006370".data]) none,
     Row.mk [] (some ["r1006349".data]) none]).2.2.2
    [("r1006349".data, .codes ["ABCD1234".data]),
     ("r1006370".data, .text "r1006370".data)] rfl).1

/-! ### C6: first-occurrence-order deduplication in the assembler -/

theorem dedup_append_singleton {α : Type} [DecidableEq α] :
    ∀ (l : List α) (x : α),
      (l ++ [x]).dedup = (l.filter (fun y => y != x)).dedup ++ [x]
  | [], x => by simp
  | a :: l, x => by
      rw [List.cons_append]
      by_cases hax : a = x
      · subst hax
        have hmem : a ∈ l ++ [a] := by simp
        rw [List.dedup_cons_of_mem hmem, dedup_append_singleton l a,
          List.filter_cons]
        simp
      · have hfa : (a != x) = true := by simpa using hax
        rw [List.filter_cons, if_pos hfa]
        by_cases hal : a ∈ l
        · have hmem : a ∈ l ++ [x] := by simp [hal]
          have hmemf : a ∈ l.filter (fun y => y != x) :=
            List.mem_filter.mpr ⟨hal, hfa⟩
          rw [List.dedup_cons_of_mem hmem, List.dedup_cons_of_mem hmemf,
            dedup_append_singleton l x]
        · have hmem : a ∉ l ++ [x] := by simp [hal, hax]
          have hmemf : a ∉ l.filter (fun y => y != x) := by
            intro hc
            exact hal (List.mem_filter.mp hc).1
          rw [List.dedup_cons_of_not_mem hmem, List.dedup_cons_of_not_mem hmemf,
            dedup_append_singleton l x, List.cons_append]

theorem jsUniqGo_eq {α : Type} [DecidableEq α] :
    ∀ (l seen : List α),
      jsUniqGo seen l =
        ((l.filter (fun y => decide (y ∉ seen))).reverse.dedup).reverse
  | [], seen => by simp [jsUniqGo]
  | x :: xs, seen => by
      unfold jsUniqGo
      by_cases hx : x ∈ seen
      · rw [if_pos hx,
          show (x :: xs).filter (fun y => decide (y ∉ seen)) =
            xs.filter (fun y => decide (y ∉ seen)) by
              rw [List.filter_cons]; simp [hx]]
        exact jsUniqGo_eq xs seen
      · rw [if_neg hx,
          show (x :: xs).filter (fun y => decide (y ∉ seen)) =
            x :: xs.filter (fun y => decide (y ∉ seen)) by
              rw [List.filter_cons]; simp [hx]]
        rw [List.reverse_cons, dedup_append_singleton, List.reverse_append]
        simp only [List.reverse_cons, List.reverse_nil, List.nil_append,
          List.singleton_append]
        congr 1
        rw [jsUniqGo_eq xs (x :: seen), List.filter_reverse, List.filter_filter]
        have hpt : ∀ a ∈ xs,
            ((a != x) && decide (a ∉ seen)) = decide (a ∉ x :: seen) := by
          intro a _
          by_cases hae : a = x
          · subst hae
            simp
          · by_cases has : a ∈ seen
            · simp [has, hae]
            · simp [has, hae]
        rw [List.filter_congr hpt]

/-- lodash `_fp.uniq` keeps the first occurrence of each value, in
original order: it equals reversing, keeping last occurrences
(`List.dedup`), and reversing back. -/
theorem jsUniq_eq_reverse_dedup_reverse {α : Type} [DecidableEq α]
    (l : List α) : jsUniq l = (l.reverse.dedup).reverse := by
  unfold jsUniq
  rw [jsUniqGo_eq l []]
  congr 2
  have : ∀ a ∈ l, (decide (a ∉ ([] : List α))) = true := by simp
  rw [List.filter_congr this, List.filter_true]

theorem jsUniq_nodup {α : Type} [DecidableEq α] (l : List α) :
    (jsUniq l).Nodup := by
  rw [jsUniq_eq_reverse_dedup_reverse]
  exact List.nodup_reverse.mpr (List.nodup_dedup _)

theorem jsUniq_sublist {α : Type} [DecidableEq α] (l : List α) :
    List.Sublist (jsUniq l) l := by
  rw [jsUniq_eq_reverse_dedup_reverse]
  have h1 : List.Sublist (l.reverse.dedup) l.reverse := List.dedup_sublist _
  have h2 := List.reverse_sublist.mpr h1
  rwa [List.reverse_reverse] at h2

theorem mem_jsUniq {α : Type} [DecidableEq α] {l : List α} {x : α} :
    x ∈ jsUniq l ↔ x ∈ l := by
  rw [jsUniq_eq_reverse_dedup_reverse, List.mem_reverse, List.mem_dedup,
    List.mem_reverse]

theorem augmentInputDataWithResults_getElem (mapping : List (Str × Resolution))
    (rows : List Row) (i : Nat) (h : i < rows.length) :
    (augmentInputDataWithResults mapping rows)[i]? =
      some (match rows[i].recordNumbers with
        | some rns => { rows[i] with results := some (rowResultsOf mapping rns) }
        | none => rows[i]) := by
  unfold augmentInputDataWithResults
  rw [List.getElem?_map, List.getElem?_eq_getElem h]
  rfl

/-- C6.  A processed row's `results` is the one-level flattening of its
record numbers' resolutions, deduplicated keeping the first occurrence
of each value in original order: the kept list equals
reverse-last-occurrence-dedup-reverse of the flattened list, has no
duplicates, is a sublist (so in original order), and keeps exactly the
flattened values. -/
theorem rowResults_first_occurrence_dedup (mapping : List (Str × Resolution))
    (rows : List Row) (i : Nat) (h : i < rows.length) (rns : List Str)
    (hrn : rows[i].recordNumbers = some rns) :
    (augmentInputDataWithResults mapping rows)[i]? =
      some { rows[i] with results := some (jsUniq ((rns.map (fun rn =>
        match List.lookup rn mapping with
        | some v => resolutionFlat v
        | none => [])).flatten)) } ∧
    (∀ flat : List Str,
      jsUniq flat = (flat.reverse.dedup).reverse ∧
      (jsUniq flat).Nodup ∧
      List.Sublist (jsUniq flat) flat ∧
      (∀ x, x ∈ jsUniq flat ↔ x ∈ flat)) := by
  constructor
  · rw [augmentInputDataWithResults_getElem mapping rows i h, hrn]
    rfl
  · intro flat
    exact ⟨jsUniq_eq_reverse_dedup_reverse flat, jsUniq_nodup flat,
      jsUniq_sublist flat, fun x => mem_jsUniq⟩

/-- Witness for C6: a row referencing `r1006349` (codes) and `r1006370`
(fallback text), where the two resolutions share a value, keeps the
first occurrences in order. -/
theorem rowResults_first_occurrence_dedup_witness :
    (augmentInputDataWithResults
      [("r1006349".data, .codes ["ABCD1234".data, "XYZW9999".data]),
       ("r1006370".data, .text "ABCD1234".data)]
      [Row.mk [] (some ["r1006349".data, "r1006370".data]) none])[0]? =
      some (Row.mk []
        (some ["r1006349".data, "r1006370".data])
        (some ["ABCD1234".data, "XYZW9999".data])) := by
  have := (rowResults_first_occurrence_dedup
    [("r1006349".data, .codes ["ABCD1234".data, "XYZW9999".data]),
     ("r1006370".data, .text "ABCD1234".data)]
    [Row.mk [] (some ["r1006349".data, "r1006370".data]) none] 0 (by decide)
    ["r1006349".data, "r1006370".data] rfl).1
  rw [this]
  rfl

/-! ### C4: the record-number extractor against its declarative contract -/

theorem isRecToken_length {w : Str} (h : isRecToken w = true) : w.length = 8 := by
  unfold isRecToken at h
  split at h
  · rfl
  · exact absurd h (by simp)

theorem occursAt_add (s : Str) (k i : Nat) :
    occursAt s (i + k) = occursAt (s.drop k) i := by
  unfold occursAt
  rw [List.drop_drop, Nat.add_comm i k]

theorem occursAt_zero (s : Str) : occursAt s 0 = isRecToken (s.take 8) := by
  unfold occursAt
  rw [List.drop_zero]

theorem recMatchPositions_cons (c : Char) (cs : Str) :
    recMatchPositions (c :: cs) =
      (if occursAt (c :: cs) 0 then [0] else []) ++
        (recMatchPositions cs).map (fun i => i + 1) := by
  unfold recMatchPositions
  rw [List.length_cons, List.range_succ_eq_map, List.filter_cons]
  have hsucc : (List.range cs.length).map Nat.succ
      = (List.range cs.length).map (fun i => i + 1) :=
    List.map_congr_left (fun a _ => rfl)
  rw [hsucc, List.filter_map]
  have hpt : ∀ i ∈ List.range cs.length,
      (occursAt (c :: cs) ∘ fun i => i + 1) i = occursAt cs i := by
    intro i _
    show occursAt (c :: cs) (i + 1) = occursAt cs i
    rw [occursAt_add (c :: cs) 1 i]
    rfl
  rw [List.filter_congr hpt]
  by_cases h0 : occursAt (c :: cs) 0 = true
  · rw [if_pos h0, if_pos h0, List.singleton_append]
  · rw [if_neg h0, if_neg h0, List.nil_append]

theorem greedyPick_map_add (k : Nat) :
    ∀ (lo : Nat) (l : List Nat),
      greedyPick (lo + k) (l.map (fun i => i + k)) =
        (greedyPick lo l).map (fun i => i + k)
  | _, [] => rfl
  | lo, i :: rest => by
      simp only [List.map_cons, greedyPick]
      by_cases h : i < lo
      · rw [if_pos (by omega), if_pos h]
        exact greedyPick_map_add k lo rest
      · rw [if_neg (by omega), if_neg h, List.map_cons]
        rw [show i + k + 8 = i + 8 + k by omega]
        rw [greedyPick_map_add k (i + 8) rest]

theorem greedyPick_le_congr :
    ∀ (l : List Nat) (lo k : Nat), lo ≤ k → (∀ i ∈ l, k ≤ i) →
      greedyPick lo l = greedyPick k l
  | [], _, _, _, _ => rfl
  | i :: rest, lo, k, hlk, hall => by
      have hik : k ≤ i := hall i (List.mem_cons_self i rest)
      simp only [greedyPick]
      rw [if_neg (by omega), if_neg (by omega)]

theorem greedyPick_filter_ge :
    ∀ (l : List Nat) (lo k : Nat), k ≤ lo →
      greedyPick lo (l.filter (fun i => decide (k ≤ i))) = greedyPick lo l
  | [], _, _, _ => rfl
  | i :: rest, lo, k, hkl => by
      rw [List.filter_cons]
      by_cases hik : k ≤ i
      · rw [if_pos (by simpa using hik)]
        simp only [greedyPick]
        by_cases hilo : i < lo
        · rw [if_pos hilo, if_pos hilo]
          exact greedyPick_filter_ge rest lo k hkl
        · rw [if_neg hilo, if_neg hilo]
          rw [greedyPick_filter_ge rest (i + 8) k (by omega)]
      · rw [if_neg (by simpa using hik)]
        simp only [greedyPick]
        rw [if_pos (by omega)]
        exact greedyPick_filter_ge rest lo k hkl

theorem greedyPick_subset :
    ∀ (lo : Nat) (l : List Nat) (i : Nat), i ∈ greedyPick lo l → i ∈ l
  | lo, [], i, h => absurd h (List.not_mem_nil i)
  | lo, j :: rest, i, h => by
      simp only [greedyPick] at h
      by_cases hj : j < lo
      · rw [if_pos hj] at h
        exact List.mem_cons_of_mem j (greedyPick_subset lo rest i h)
      · rw [if_neg hj] at h
        rcases List.mem_cons.mp h with rfl | hmem
        · exact List.mem_cons_self i rest
        · exact List.mem_cons_of_mem j (greedyPick_subset (j + 8) rest i hmem)

theorem range_filter_ge (n k : Nat) :
    (List.range n).filter (fun i => decide (k ≤ i)) =
      (List.range (n - k)).map (fun i => i + k) := by
  rcases le_or_lt k n with hkn | hkn
  · have hn : n = k + (n - k) := by omega
    have key : (List.range (k + (n - k))).filter (fun i => decide (k ≤ i)) =
        (List.range (n - k)).map (fun i => i + k) := by
      rw [List.range_add, List.filter_append]
      have h1 : (List.range k).filter (fun i => decide (k ≤ i)) = [] := by
        rw [List.filter_eq_nil_iff]
        intro a ha
        rw [List.mem_range] at ha
        simp only [decide_eq_true_eq]
        omega
      have h2 : ((List.range (n - k)).map (fun i => k + i)).filter
          (fun i => decide (k ≤ i)) = (List.range (n - k)).map (fun i => k + i) := by
        apply List.filter_eq_self.mpr
        intro a ha
        rw [List.mem_map] at ha
        obtain ⟨i, _, rfl⟩ := ha
        simp
      rw [h1, h2, List.nil_append]
      exact List.map_congr_left (fun a _ => Nat.add_comm k a)
    conv_lhs => rw [hn]
    exact key
  · have h0 : n - k = 0 := by omega
    rw [h0, List.range_zero, List.map_nil]
    rw [List.filter_eq_nil_iff]
    intro a ha
    rw [List.mem_range] at ha
    simp only [decide_eq_true_eq]
    omega

theorem positions_filter_ge (s : Str) (k : Nat) :
    (recMatchPositions s).filter (fun i => decide (k ≤ i)) =
      (recMatchPositions (s.drop k)).map (fun i => i + k) := by
  unfold recMatchPositions
  rw [List.filter_filter]
  have hsplit : (List.range s.length).filter
      (fun a => decide (k ≤ a) && occursAt s a) =
      ((List.range s.length).filter (fun i => decide (k ≤ i))).filter (occursAt s) := by
    rw [List.filter_filter]
    exact List.filter_congr (fun a _ => Bool.and_comm _ _)
  rw [hsplit, range_filter_ge, List.filter_map, List.length_drop]
  congr 1
  exact List.filter_congr (fun i _ => occursAt_add s k i)

/-- C4.  The scanner for `/r(\d{7})/g` returns exactly the left-to-right
greedy non-overlapping occurrences of the pattern (duplicates retained
by construction); every returned token really is `r` + 7 digits and has
length 8; `match` returns null exactly when there is no occurrence; and
a row whose `recordNumbers` is absent is left untouched by the result
assembler. -/
theorem recScan_matches_spec :
    ∀ s : Str, recScan s = recExtractSpec s
  | [] => rfl
  | c :: cs => by
      rw [recScan_cons]
      unfold recExtractSpec
      rw [recMatchPositions_cons]
      by_cases h0 : occursAt (c :: cs) 0 = true
      · have hm : isRecToken ((c :: cs).take 8) = true := by
          rwa [occursAt_zero] at h0
        rw [if_pos h0, if_pos hm, List.singleton_append]
        rw [show greedyPick 0 (0 :: (recMatchPositions cs).map (fun i => i + 1)) =
            0 :: greedyPick 8 ((recMatchPositions cs).map (fun i => i + 1)) from by
          simp [greedyPick]]
        rw [List.map_cons]
        congr 1
        rw [← greedyPick_filter_ge ((recMatchPositions cs).map (fun i => i + 1))
          8 8 (le_refl 8)]
        have e2 : ((recMatchPositions cs).map (fun i => i + 1)).filter
            (fun i => decide (8 ≤ i)) =
            (recMatchPositions (c :: cs)).filter (fun i => decide (8 ≤ i)) := by
          rw [recMatchPositions_cons, if_pos h0, List.singleton_append,
            List.filter_cons]
          rw [if_neg (by simp)]
        rw [e2, positions_filter_ge (c :: cs) 8]
        rw [show greedyPick 8
            ((recMatchPositions ((c :: cs).drop 8)).map (fun i => i + 8)) =
            (greedyPick 0 (recMatchPositions ((c :: cs).drop 8))).map
              (fun i => i + 8) from
          greedyPick_map_add 8 0 (recMatchPositions ((c :: cs).drop 8))]
        rw [List.map_map]
        rw [recScan_matches_spec ((c :: cs).drop 8)]
        unfold recExtractSpec
        exact List.map_congr_left (fun i _ => by
          show (((c :: cs).drop 8).drop i).take 8 = ((c :: cs).drop (i + 8)).take 8
          rw [List.drop_drop, Nat.add_comm 8 i])
      · have hm : ¬ isRecToken ((c :: cs).take 8) = true := by
          rw [← occursAt_zero]
          exact h0
        rw [if_neg h0, if_neg hm, List.nil_append]
        rw [greedyPick_le_congr ((recMatchPositions cs).map (fun i => i + 1)) 0 1
          (by omega) (by
            intro i hi
            rw [List.mem_map] at hi
            obtain ⟨j, _, rfl⟩ := hi
            omega)]
        rw [show greedyPick 1 ((recMatchPositions cs).map (fun i => i + 1)) =
            (greedyPick 0 (recMatchPositions cs)).map (fun i => i + 1) from
          greedyPick_map_add 1 0 (recMatchPositions cs)]
        rw [List.map_map]
        rw [recScan_matches_spec cs]
        unfold recExtractSpec
        exact List.map_congr_left (fun i _ => rfl)
termination_by s => s.length
decreasing_by
  · simp only [List.length_drop, List.length_cons]
    omega
  · simp

/-- C4.  The record-number extractor returns exactly the greedy
left-to-right non-overlapping occurrences of `r` + 7 digits, in order,
duplicates retained (`recExtractSpec` is the spec-side description);
every returned token matches the pattern and has length 8; the `match`
result is null exactly when there is no occurrence; and a row whose
`recordNumbers` is absent is left untouched by the result assembler. -/
theorem record_number_extractor_contract (s : Str) :
    recScan s = recExtractSpec s ∧
    (∀ t ∈ recScan s, isRecToken t = true ∧ t.length = 8) ∧
    (jsMatchOpt recScan s = none ↔ recScan s = []) ∧
    (∀ (mapping : List (Str × Resolution)) (rows : List Row) (i : Nat)
      (h : i < rows.length), rows[i].recordNumbers = none →
      (augmentInputDataWithResults mapping rows)[i]? = some rows[i]) := by
  refine ⟨recScan_matches_spec s, ?_, ?_, ?_⟩
  · intro t ht
    rw [recScan_matches_spec s] at ht
    unfold recExtractSpec at ht
    rw [List.mem_map] at ht
    obtain ⟨i, hi, rfl⟩ := ht
    have hpos : i ∈ recMatchPositions s := greedyPick_subset 0 _ i hi
    unfold recMatchPositions at hpos
    have hocc : occursAt s i = true := (List.mem_filter.mp hpos).2
    unfold occursAt at hocc
    exact ⟨hocc, isRecToken_length hocc⟩
  · unfold jsMatchOpt
    match hscan : recScan s with
    | [] => simp
    | x :: xs => simp
  · intro mapping rows i h hnone
    rw [augmentInputDataWithResults_getElem mapping rows i h, hnone]

/-- Witness for C4 at the spec's own scenario cell
`r1006349 r1006370,x` (plus the punctuation scenario and a matchless
row left untouched). -/
theorem record_number_extractor_contract_witness :
    recScan "r1006349 r1006370,x".data = ["r1006349".data, "r1006370".data] ∧
    (isRecToken "r1006349".data = true ∧ ("r1006349".data).length = 8) ∧
    recScan "\x22r1006349\x22; semicolon".data = ["r1006349".data] ∧
    (augmentInputDataWithResults [] [Row.mk [['x']] none none])[0]? =
      some (Row.mk [['x']] none none) := by
  refine ⟨by decide, ?_, by decide, ?_⟩
  · exact (record_number_extractor_contract "r1006349 r1006370,x".data).2.1
      "r1006349".data (by decide)
  · exact (record_number_extractor_contract [] ).2.2.2 []
      [Row.mk [['x']] none none] 0 (by decide) rfl

-- Sanity checks of the scanners against JavaScript behaviour.

example : recScan "r1006349 r1006370,x".data = ["r1006349".data, "r1006370".data] := by
  decide

example : recScan "xyz".data = [] := by decide

example : recScan "r12345678".data = ["r1234567".data] := by decide

example : uosScan "zABCD 1234z".data = ["ABCD 1234".data] := by decide

example : uosScan "ABCDE1234".data = ["BCDE1234".data] := by decide

example : uosScan "abcd1234".data = [] := by decide

example : replaceFirstSpace "ABCD  1234".data = "ABCD 1234".data := by decide

example :
    resolveRecord ["see ABCD 1234".data, "ABCD1234".data] "r1006349".data
      = .codes ["ABCD1234".data] := by decide

example : resolveRecord [] "r1006370".data = .text "r1006370".data := by decide

example : resolveRecord ["no code here".data] "r1006370".data
    = .text "no code here".data := by decide
